import Mathlib

/-!
Verification of the package-acquisition core of `zap-pm` (a Go package manager).

The development shallowly embeds the registry client (`internal/registry`:
`resolveVersion`, `isExactVersion`, `GetPackageVersion`, `fetchWithRetry`) and
the download manager (`internal/downloader`: `DownloadPackage`,
`DownloadDependencies`, `downloadFile`, `checkCache`) as pure Lean functions.

External effects are made explicit:
* the file system is an association list from paths to byte lists;
* the SHA-1 digest is an arbitrary function parameter `h : List Nat → String`
  (the code only ever compares its hex output for equality);
* HTTP responses are passed in as values describing the outcome of each request;
* the semantic-version library (`Masterminds/semver/v3`, an external dependency
  whose sources are not part of this repository) is modelled from the spec:
  lenient version parsing, semver precedence ordering that ignores build
  metadata, and constraint ranges built from the operators
  `= != > < >= <= ~ ^`, comma/space conjunction and `||` disjunction.

All definitions are executable and use structural recursion only, so concrete
runs evaluate inside the kernel via `decide`.
-/

namespace ZapPM

/-- Decidable equality for `Except`, used to evaluate concrete runs. -/
instance {ε α : Type _} [DecidableEq ε] [DecidableEq α] : DecidableEq (Except ε α) := fun a b =>
  match a, b with
  | .ok x, .ok y =>
    if h : x = y then .isTrue (by rw [h]) else .isFalse (fun he => by cases he; exact h rfl)
  | .error x, .error y =>
    if h : x = y then .isTrue (by rw [h]) else .isFalse (fun he => by cases he; exact h rfl)
  | .ok _, .error _ => .isFalse (fun he => by cases he)
  | .error _, .ok _ => .isFalse (fun he => by cases he)

/-! ## Character-list string utilities

The Go code works on `string`; the embedding works on `List Char` so that every
operation is a structural recursion the kernel can evaluate. -/

/-- The character list of a string. -/
def chars (s : String) : List Char := s.data

/-- Split a character list at every occurrence of the separator character,
like Go's `strings.Split` with a one-character separator. -/
def splitOnChar (c : Char) : List Char → List (List Char)
  | [] => [[]]
  | x :: xs =>
    let rest := splitOnChar c xs
    if x = c then [] :: rest
    else match rest with
      | [] => [[x]]
      | r :: rs => (x :: r) :: rs

/-- Split at the first occurrence of the separator character only, like Go's
`strings.SplitN(s, sep, 2)`: returns the part before the separator and, when
the separator occurs, the remainder after it. -/
def splitOnceChar (c : Char) : List Char → List Char × Option (List Char)
  | [] => ([], none)
  | x :: xs =>
    if x = c then ([], some xs)
    else
      let (pre, rest) := splitOnceChar c xs
      (x :: pre, rest)

/-- Split into at most three parts on `'.'`, like Go's
`strings.SplitN(s, ".", 3)`: the third part keeps any further dots. -/
def splitDots3 (cs : List Char) : List (List Char) :=
  match splitOnceChar '.' cs with
  | (a, none) => [a]
  | (a, some rest) =>
    match splitOnceChar '.' rest with
    | (b, none) => [a, b]
    | (b, some rest2) => [a, b, rest2]

/-- Split on the two-character separator `||`, like Go's
`strings.Split(s, "||")`. -/
def splitOrBars : List Char → List (List Char)
  | [] => [[]]
  | '|' :: '|' :: xs => [] :: splitOrBars xs
  | x :: xs =>
    match splitOrBars xs with
    | [] => [[x]]
    | r :: rs => (x :: r) :: rs

/-- Strip leading and trailing whitespace, like Go's `strings.TrimSpace` /
Lean's `String.trim`. -/
def trimChars (cs : List Char) : List Char :=
  ((cs.dropWhile Char.isWhitespace).reverse.dropWhile Char.isWhitespace).reverse

/-- Whether the pattern is a prefix of the list, like Go's
`strings.HasPrefix`. -/
def beginsWith : List Char → List Char → Bool
  | [], _ => true
  | _ :: _, [] => false
  | p :: ps, x :: xs => p = x && beginsWith ps xs

/-- Join the pieces with the given separator character between them. -/
def joinWith (c : Char) : List (List Char) → List Char
  | [] => []
  | [a] => a
  | a :: rest => a ++ c :: joinWith c rest

/-- The numeric value of a list of decimal digits. -/
def digitsToNat (cs : List Char) : Nat :=
  cs.foldl (fun a c => a * 10 + (c.toNat - 48)) 0

/-- The decimal digit character for `n < 10`. -/
def digitChar (n : Nat) : Char := Char.ofNat (48 + n)

/-- Decimal digits of a number, fuel-driven so the recursion is structural. -/
def natCharsAux : Nat → Nat → List Char
  | 0, _ => []
  | fuel + 1, n =>
    if n < 10 then [digitChar n]
    else natCharsAux fuel (n / 10) ++ [digitChar (n % 10)]

/-- Decimal rendering of a natural number as characters. -/
def natChars (n : Nat) : List Char := natCharsAux (n + 1) n

/-! ## Semantic versions

Modelled from the spec: the version type, lenient parsing, precedence ordering
and canonical rendering of the external `Masterminds/semver/v3` dependency,
which is not part of this repository's sources.  Parsing accepts `"1"`,
`"1.2"`, an optional leading `v`/`V`, a `-prerelease` suffix and a `+metadata`
suffix; prerelease identifiers are dot-separated, numeric identifiers may not
have leading zeros; ordering compares major/minor/patch numerically, then
prerelease identifiers per the semver rules (a version without prerelease is
higher; numeric identifiers are lower than alphanumeric ones), ignoring build
metadata. -/

/-- A prerelease identifier: numeric, or alphanumeric (stored as characters). -/
inductive PreId where
  | num (n : Nat)
  | str (s : List Char)
deriving DecidableEq, Repr

/-- A parsed semantic version. -/
structure SemVer where
  major : Nat
  minor : Nat
  patch : Nat
  pre : List PreId
  build : List Char
deriving DecidableEq, Repr

/-- Characters allowed inside prerelease and metadata identifiers. -/
def isIdentChar (c : Char) : Bool := c.isAlphanum || c = '-'

/-- Parse a numeric version part: nonempty, digits only (leading zeros are
tolerated by the lenient parser). -/
def parseNumPart (cs : List Char) : Option Nat :=
  if cs ≠ [] ∧ cs.all Char.isDigit then some (digitsToNat cs) else none

/-- Parse one prerelease identifier: nonempty, alphanumeric/hyphen characters;
an all-digit identifier must not have a leading zero and becomes numeric. -/
def parsePreId (cs : List Char) : Option PreId :=
  if cs = [] then none
  else if ¬ cs.all isIdentChar then none
  else if cs.all Char.isDigit then
    if cs.length > 1 ∧ cs.headD 'x' = '0' then none
    else some (.num (digitsToNat cs))
  else some (.str cs)

/-- Parse the prerelease suffix (after `-`), if present: dot-separated
identifiers.  An empty suffix counts as no prerelease, as in the Go library. -/
def parsePre : Option (List Char) → Option (List PreId)
  | none => some []
  | some [] => some []
  | some cs => (splitOnChar '.' cs).mapM parsePreId

/-- Validate the build-metadata suffix (after `+`), if present: dot-separated
nonempty alphanumeric/hyphen identifiers.  Returned verbatim. -/
def parseBuild : Option (List Char) → Option (List Char)
  | none => some []
  | some [] => some []
  | some cs =>
    if (splitOnChar '.' cs).all (fun p => p ≠ [] ∧ p.all isIdentChar) then some cs
    else none

/-- Extract `+metadata` and then `-prerelease` from the last dotted part, the
way `Masterminds` `NewVersion` does. -/
def splitLastPart (cs : List Char) : List Char × Option (List Char) × Option (List Char) :=
  let (core, buildS) := splitOnceChar '+' cs
  let (core2, preS) := splitOnceChar '-' core
  (core2, preS, buildS)

/-- Lenient version parsing over characters (`Masterminds` `NewVersion`):
optional leading `v`/`V`, one to three dotted numeric parts (missing parts
default to zero), optional prerelease and metadata on the last part. -/
def parseVersionChars (cs0 : List Char) : Option SemVer :=
  let cs := match cs0 with
    | 'v' :: rest => rest
    | 'V' :: rest => rest
    | other => other
  let build3 : List Char → Option (List Char) → Option (List Char) →
      Option (List Char) → Option (List Char) → Option SemVer :=
    fun p0 p1 p2 preS buildS => do
      let maj ← parseNumPart p0
      let mi ← match p1 with
        | none => some 0
        | some x => parseNumPart x
      let pa ← match p2 with
        | none => some 0
        | some x => parseNumPart x
      let pre ← parsePre preS
      let bld ← parseBuild buildS
      pure ⟨maj, mi, pa, pre, bld⟩
  match splitDots3 cs with
  | [a] =>
    let (core, preS, buildS) := splitLastPart a
    build3 core none none preS buildS
  | [a, b] =>
    let (core, preS, buildS) := splitLastPart b
    build3 a (some core) none preS buildS
  | [a, b, c] =>
    let (core, preS, buildS) := splitLastPart c
    build3 a (some b) (some core) preS buildS
  | _ => none

/-- Version parsing on strings. -/
def parseVersion (s : String) : Option SemVer := parseVersionChars (chars s)

/-- Canonical rendering of one prerelease identifier. -/
def preIdChars : PreId → List Char
  | .num n => natChars n
  | .str s => s

/-- Canonical rendering of a parsed version (`Masterminds` `Version.String()`),
rebuilt from the parsed fields rather than echoing the original input. -/
def vString (v : SemVer) : String :=
  String.mk
    (natChars v.major ++ '.' :: natChars v.minor ++ '.' :: natChars v.patch ++
      (if v.pre = [] then [] else '-' :: joinWith '.' (v.pre.map preIdChars)) ++
      (if v.build = [] then [] else '+' :: v.build))

/-! ## Semver precedence ordering -/

/-- Lexicographic comparison of two lists by an element comparator; a strict
prefix is lower. -/
def listCompare (cmp : α → α → Ordering) : List α → List α → Ordering
  | [], [] => .eq
  | [], _ :: _ => .lt
  | _ :: _, [] => .gt
  | a :: as, b :: bs => (cmp a b).then (listCompare cmp as bs)

/-- Compare two prerelease identifiers: numeric below alphanumeric, numeric
numerically, alphanumeric by character order. -/
def preIdCompare : PreId → PreId → Ordering
  | .num a, .num b => compare a b
  | .num _, .str _ => .lt
  | .str _, .num _ => .gt
  | .str a, .str b => listCompare compare a b

/-- Compare prerelease lists: an empty list (a release) is higher than any
nonempty one; otherwise identifier-by-identifier, shorter prefix lower. -/
def prereleaseCompare (a b : List PreId) : Ordering :=
  match a, b with
  | [], [] => .eq
  | [], _ :: _ => .gt
  | _ :: _, [] => .lt
  | _, _ => listCompare preIdCompare a b

/-- Semver precedence (`Masterminds` `Version.Compare`): major, minor, patch,
then prerelease; build metadata is ignored. -/
def svcompare : SemVer → SemVer → Ordering :=
  compareLex (Ordering.byKey SemVer.major compare)
    (compareLex (Ordering.byKey SemVer.minor compare)
      (compareLex (Ordering.byKey SemVer.patch compare)
        (Ordering.byKey SemVer.pre prereleaseCompare)))

/-- Boolean `a ≤ b` under semver precedence. -/
def svLe (a b : SemVer) : Bool := svcompare a b ≠ .gt

/-- Boolean `a < b` under semver precedence. -/
def svLt (a b : SemVer) : Bool := svcompare a b = .lt

/-! ## Version constraints

Modelled from the spec: `Masterminds` `NewConstraint`/`Constraints.Check` for
the range forms the spec names (exact, caret-range, tilde-range, comparison,
wildcard).  A constraint string is a `||`-disjunction of groups; a group is a
comma/space-separated conjunction of units; a unit is an optional operator
(`= != > < >= => <= =< ~ ~> ^`) followed by a version that may leave minor or
patch unspecified or give them as the wildcards `x`/`X`/`*`.  As in the Go
library, a checked version that carries a prerelease only matches a unit whose
version also carries one.  (Hyphen ranges, a corner of the library the spec
does not name, are not modelled; strings using them simply fail to parse.) -/

/-- A constraint-side version: unspecified/wildcard parts are `none`. -/
structure ConVer where
  maj : Option Nat
  mi : Option Nat
  pa : Option Nat
  pre : List PreId
deriving DecidableEq, Repr

/-- A constraint operator. -/
inductive COp where
  | eq | ne | gt | lt | ge | le | tilde | caret
deriving DecidableEq, Repr

/-- A parsed range: disjunction of conjunctions of operator/version units. -/
structure Constraint where
  ors : List (List (COp × ConVer))
deriving DecidableEq, Repr

/-- Parse one dotted part of a constraint version: a wildcard or a number. -/
def parseConPart (cs : List Char) : Option (Option Nat) :=
  if cs = ['x'] ∨ cs = ['X'] ∨ cs = ['*'] then some none
  else (parseNumPart cs).map some

/-- Parse the version carried by one constraint unit. -/
def parseConVer (cs0 : List Char) : Option ConVer :=
  let cs := match cs0 with
    | 'v' :: rest => rest
    | 'V' :: rest => rest
    | other => other
  if cs = [] then some ⟨none, none, none, []⟩
  else
    let build3 : List Char → Option (List Char) → Option (List Char) →
        Option (List Char) → Option (List Char) → Option ConVer :=
      fun p0 p1 p2 preS buildS => do
        let maj ← parseConPart p0
        let mi ← match p1 with
          | none => some none
          | some x => parseConPart x
        let pa ← match p2 with
          | none => some none
          | some x => parseConPart x
        let pre ← parsePre preS
        let _ ← parseBuild buildS
        pure ⟨maj, mi, pa, pre⟩
    match splitDots3 cs with
    | [a] =>
      let (core, preS, buildS) := splitLastPart a
      build3 core none none preS buildS
    | [a, b] =>
      let (core, preS, buildS) := splitLastPart b
      build3 a (some core) none preS buildS
    | [a, b, c] =>
      let (core, preS, buildS) := splitLastPart c
      build3 a (some b) (some core) preS buildS
    | _ => none

/-- Strip the operator from the front of a unit token. -/
def opSplit (cs : List Char) : COp × List Char :=
  match cs with
  | '>' :: '=' :: rest => (.ge, rest)
  | '=' :: '>' :: rest => (.ge, rest)
  | '<' :: '=' :: rest => (.le, rest)
  | '=' :: '<' :: rest => (.le, rest)
  | '!' :: '=' :: rest => (.ne, rest)
  | '~' :: '>' :: rest => (.tilde, rest)
  | '>' :: rest => (.gt, rest)
  | '<' :: rest => (.lt, rest)
  | '=' :: rest => (.eq, rest)
  | '~' :: rest => (.tilde, rest)
  | '^' :: rest => (.caret, rest)
  | other => (.eq, other)

/-- Parse one constraint unit: operator plus version. -/
def parseUnit (cs : List Char) : Option (COp × ConVer) :=
  let (op, rest) := opSplit cs
  (parseConVer (trimChars rest)).map (fun cv => (op, cv))

/-- Parse one `||`-free group: comma/space-separated units, at least one. -/
def parseGroup (cs : List Char) : Option (List (COp × ConVer)) :=
  let toks := ((splitOnChar ',' cs).flatMap (splitOnChar ' ')).filter (· ≠ [])
  if toks = [] then none else toks.mapM parseUnit

/-- Parse a whole constraint string (`Masterminds` `NewConstraint`). -/
def parseConstraint (s : String) : Option Constraint :=
  ((splitOrBars (chars s)).mapM parseGroup).map Constraint.mk

/-- Zero-fill the unspecified parts of a constraint version. -/
def zfill (c : ConVer) : SemVer :=
  ⟨c.maj.getD 0, c.mi.getD 0, c.pa.getD 0, c.pre, []⟩

/-- The prerelease guard: a version carrying a prerelease only matches units
whose version also carries one. -/
def preGuard (c : ConVer) (v : SemVer) : Bool :=
  v.pre = [] || c.pre ≠ []

/-- Segment-wise equality, wildcards matching anything. -/
def checkEqCon (c : ConVer) (v : SemVer) : Bool :=
  match c.maj with
  | none => true
  | some m =>
    if v.major ≠ m then false
    else match c.mi with
      | none => true
      | some mi2 =>
        if v.minor ≠ mi2 then false
        else match c.pa with
          | none => true
          | some p2 =>
            if v.patch ≠ p2 then false
            else v.pre = c.pre

/-- Tilde range: patch-level (or minor-level, when minor is unspecified)
changes allowed above the zero-filled lower bound. -/
def checkTilde (c : ConVer) (v : SemVer) : Bool :=
  let lo := zfill c
  let hiOk : Bool :=
    match c.maj, c.mi with
    | none, _ => true
    | some _, none => svLt v ⟨lo.major + 1, 0, 0, [], []⟩
    | some _, some mi2 => svLt v ⟨lo.major, mi2 + 1, 0, [], []⟩
  svLe lo v && hiOk

/-- Caret range: no changes to the leftmost nonzero part above the zero-filled
lower bound. -/
def checkCaret (c : ConVer) (v : SemVer) : Bool :=
  let lo := zfill c
  let hiOk : Bool :=
    match c.maj with
    | none => true
    | some m =>
      if m > 0 then svLt v ⟨m + 1, 0, 0, [], []⟩
      else match c.mi, c.pa with
        | none, _ => svLt v ⟨1, 0, 0, [], []⟩
        | some mi2, none => svLt v ⟨0, mi2 + 1, 0, [], []⟩
        | some mi2, some p2 =>
          if mi2 > 0 then svLt v ⟨0, mi2 + 1, 0, [], []⟩
          else svLt v ⟨0, 0, p2 + 1, [], []⟩
  svLe lo v && hiOk

/-- Whether one operator/version unit admits a version. -/
def checkUnit (u : COp × ConVer) (v : SemVer) : Bool :=
  preGuard u.2 v &&
  match u.1 with
  | .eq => checkEqCon u.2 v
  | .ne => ! checkEqCon u.2 v
  | .gt => svLt (zfill u.2) v
  | .ge => svLe (zfill u.2) v
  | .lt => svLt v (zfill u.2)
  | .le => svLe v (zfill u.2)
  | .tilde => checkTilde u.2 v
  | .caret => checkCaret u.2 v

/-- Whether a parsed constraint admits a version (`Constraints.Check`): some
`||`-group must have all of its units admit it. -/
def checkConstraint (c : Constraint) (v : SemVer) : Bool :=
  c.ors.any (fun grp => grp.all (fun u => checkUnit u v))

/-! ## Registry client (`internal/registry`)

Go maps are embedded as association lists: the list order is one iteration
order of the map, and `List.lookup` is map indexing.  A metadata fetch is an
external effect; the embedded functions take the fetch outcome as a value and
additionally return how many metadata fetches they performed. -/

/-- Archive location and expected checksum of one published version. -/
structure Dist where
  tarball : String
  shasum : String
deriving DecidableEq, Repr

/-- Metadata of one published version (`registry.VersionInfo`). -/
structure VersionInfo where
  version : String
  dependencies : List (String × String)
  dist : Dist
deriving DecidableEq, Repr

/-- Package metadata (`registry.PackageMetadata`). -/
structure PackageMetadata where
  name : String
  versions : List (String × VersionInfo)
  distTags : List (String × String)
deriving DecidableEq, Repr

/-- Resolution-layer errors. -/
inductive RegErr where
  | metadataFailed (e : String)
  | invalidConstraint (c : String)
  | noMatchingVersion (c : String)
  | versionNotFound (version : String)
deriving DecidableEq, Repr

/-- `isExactVersion`: trims whitespace, rejects range-operator prefixes and
the literal tokens `latest` and `*`, then tries a version parse. -/
def isExactVersion (version : String) : Bool :=
  let v := trimChars (chars version)
  if beginsWith ['^'] v || beginsWith ['~'] v || beginsWith ['>'] v ||
      beginsWith ['<'] v || beginsWith ['='] v ||
      v = chars "latest" || v = chars "*" then
    false
  else (parseVersionChars v).isSome

/-- Descending semver ordering as a sort relation: `a` before `b` when
`b ≤ a` under precedence. -/
def svGeRel (a b : SemVer) : Prop := svLe b a = true

instance : DecidableRel svGeRel := fun a b => instDecidableEqBool (svLe b a) true

/-- Sort versions in descending precedence order, embedding
`sort.Sort(sort.Reverse(semver.Collection(versions)))`.  The Go sort is
unstable, so among precedence-equal versions the embedding fixes one of the
admissible outcomes. -/
def sortDesc (l : List SemVer) : List SemVer := l.insertionSort svGeRel

/-- `resolveVersion`: return an exact constraint unchanged without fetching;
otherwise fetch metadata, parse the constraint as a range, parse every
`versions` key (silently skipping unparsable keys), sort descending and return
the canonical rendering of the first version satisfying the range.  The second
component counts metadata fetches. -/
def resolveVersion (fetch : Except String PackageMetadata)
    (versionConstraint : String) : Except RegErr String × Nat :=
  if isExactVersion versionConstraint then (.ok versionConstraint, 0)
  else
    match fetch with
    | .error e => (.error (.metadataFailed e), 1)
    | .ok metadata =>
      match parseConstraint versionConstraint with
      | none => (.error (.invalidConstraint versionConstraint), 1)
      | some constraint =>
        let versions := (metadata.versions.map Prod.fst).filterMap parseVersion
        match (sortDesc versions).find? (fun v => checkConstraint constraint v) with
        | some v => (.ok (vString v), 1)
        | none => (.error (.noMatchingVersion versionConstraint), 1)

/-- `GetPackageVersion`: resolve the constraint, re-fetch metadata, and look
the resolved version up in the `versions` map; both fetches see the same
outcome `fetch`. -/
def getPackageVersion (fetch : Except String PackageMetadata)
    (versionConstraint : String) : Except RegErr VersionInfo × Nat :=
  match resolveVersion fetch versionConstraint with
  | (.error e, n) => (.error e, n)
  | (.ok version, n) =>
    match fetch with
    | .error e => (.error (.metadataFailed e), n + 1)
    | .ok metadata =>
      match metadata.versions.lookup version with
      | none => (.error (.versionNotFound version), n + 1)
      | some vi => (.ok vi, n + 1)

/-! ### `fetchWithRetry` -/

/-- Retryable fetch-layer errors. -/
inductive FetchErr where
  | network (e : String)
  | rateLimited
  | httpError (status : Nat) (body : String)
  | parseError
deriving DecidableEq, Repr

/-- The outcome of one HTTP GET: a transport error, or a response with a
status code, a body, and the result of JSON-decoding that body. -/
inductive HttpResp (α : Type) where
  | err (e : String)
  | resp (status : Nat) (body : String) (decoded : Option α)
deriving DecidableEq, Repr

/-- How `fetchWithRetry` classifies one attempt: transport errors, status 429,
other statuses `≥ 400` and decode failures are retryable errors; a successful
decode is a success. -/
def classifyAttempt : HttpResp α → Except FetchErr α
  | .err e => .error (.network e)
  | .resp status body decoded =>
    if status = 429 then .error .rateLimited
    else if status ≥ 400 then .error (.httpError status body)
    else match decoded with
      | none => .error .parseError
      | some a => .ok a

/-- The retry loop body: `remaining` attempts left, `attempt` already made,
`lastErr` the last recorded error (`none` only before any attempt). -/
def fetchLoop (responses : Nat → HttpResp α) :
    Nat → Nat → Option FetchErr → Except (Option FetchErr) α × Nat
  | 0, attempt, lastErr => (.error lastErr, attempt)
  | remaining + 1, attempt, _ =>
    match classifyAttempt (responses attempt) with
    | .ok a => (.ok a, attempt + 1)
    | .error e => fetchLoop responses remaining (attempt + 1) (some e)

/-- `fetchWithRetry`: attempts `0, 1, …, maxRetries` (the loop condition is
`attempt <= c.retryConfig.MaxRetries`), returning the first successful decode
or, once the budget is exhausted, the last recorded error.  The second
component is the number of attempts made. -/
def fetchWithRetry (maxRetries : Nat) (responses : Nat → HttpResp α) :
    Except (Option FetchErr) α × Nat :=
  fetchLoop responses (maxRetries + 1) 0 none

/-- The error an attempt records, if it fails. -/
def classifyErr (r : HttpResp α) : Option FetchErr :=
  match classifyAttempt r with
  | .error e => some e
  | .ok _ => none

/-! ## Download manager (`internal/downloader`)

The file system is an association list from paths to byte lists; the SHA-1
hex digest is a function parameter `h`. -/

/-- The file system: paths mapped to contents (bytes as naturals). -/
abbrev FS := List (String × List Nat)

/-- Write (create or truncate-and-write) a file. -/
def fsWrite (fs : FS) (p : String) (c : List Nat) : FS :=
  (p, c) :: fs.filter (fun e => e.1 ≠ p)

/-- Remove a file (`os.Remove`). -/
def fsRemove (fs : FS) (p : String) : FS :=
  fs.filter (fun e => e.1 ≠ p)

/-- The cache path of a package version:
`<cacheRoot>/<name>/<version>/package.tgz`. -/
def cachePath (cacheDir name version : String) : String :=
  cacheDir ++ "/" ++ name ++ "/" ++ version ++ "/package.tgz"

/-- `checkCache(name, version, expectedShasum)`: a missing file is a plain
miss; an existing file is read in full and digested; a matching digest is a
hit returning the path; a mismatching digest removes the stored file and
returns a checksum-mismatch error (carrying expected and actual digests).
Result: `((path, found, error), file system after the call)`. -/
def checkCache (h : List Nat → String) (cacheDir : String) (fs : FS)
    (name version expectedShasum : String) :
    (String × Bool × Option (String × String)) × FS :=
  let path := cachePath cacheDir name version
  match fs.lookup path with
  | none => (("", false, none), fs)
  | some content =>
    let actualShasum := h content
    if actualShasum ≠ expectedShasum then
      (("", false, some (expectedShasum, actualShasum)), fsRemove fs path)
    else ((path, true, none), fs)

/-- Errors of a single file transfer. -/
inductive DfErr where
  | requestFailed (e : String)
  | badStatus (status : Nat)
  | interrupted
  | checksumMismatch (expected actual : String)
deriving DecidableEq, Repr

/-- The outcome of the archive GET: a transport error, or a response with a
status and body, the copy of which may be interrupted after a prefix. -/
inductive Transfer where
  | err (e : String)
  | resp (status : Nat) (body : List Nat) (interruptedAfter : Option Nat)
deriving DecidableEq, Repr

/-- `downloadFile`: creates (truncates) the target file, performs the GET,
streams the body into the file while hashing it (the optional progress reader
does not change the bytes and is not modelled), deletes the file if the copy
is interrupted, then compares the digest with the expected checksum and
deletes the file on mismatch.  Note the file is created before the request,
and the transport-error and bad-status returns do not remove it. -/
def downloadFile (h : List Nat → String) (fs : FS)
    (targetPath expectedShasum : String) (t : Transfer) : Option DfErr × FS :=
  let fs1 := fsWrite fs targetPath []
  match t with
  | .err e => (some (.requestFailed e), fs1)
  | .resp status body interruptedAfter =>
    if status ≠ 200 then (some (.badStatus status), fs1)
    else
      match interruptedAfter with
      | some n =>
        let fs2 := fsWrite fs1 targetPath (body.take n)
        (some .interrupted, fsRemove fs2 targetPath)
      | none =>
        let fs2 := fsWrite fs1 targetPath body
        let actualShasum := h body
        if actualShasum ≠ expectedShasum then
          (some (.checksumMismatch expectedShasum actualShasum), fsRemove fs2 targetPath)
        else (none, fs2)

/-- Download options (`DownloadOptions`); the timeout does not affect the
embedded logic. -/
structure DownloadOptions where
  concurrency : Int
  useCache : Bool
  showProgress : Bool
deriving DecidableEq, Repr

/-- The default concurrency bound. -/
def defaultConcurrency : Int := 3

/-- The concurrency actually used by `DownloadDependencies` (lines setting
`opts.Concurrency` before `make(chan struct\x7b\x7d, opts.Concurrency)`):
the default replaces only non-positive values. -/
def effectiveConcurrency (c : Int) : Int :=
  if c ≤ 0 then defaultConcurrency else c

/-- The capacity of the semaphore channel gating dependency downloads. -/
def semaphoreCapacity (opts : DownloadOptions) : Int :=
  effectiveConcurrency opts.concurrency

/-- The public per-download result (`DownloadResult`). -/
structure DlResult where
  packageName : String
  version : String
  path : String
  shasum : String
  error : Option String
deriving DecidableEq, Repr

/-- Errors of a single-package download. -/
inductive DlErr where
  | registry (e : RegErr)
  | cacheValidation (expected actual : String)
  | transfer (e : DfErr)
deriving DecidableEq, Repr

/-- Effect counters of one `DownloadPackage` call. -/
structure Effects where
  metaFetches : Nat
  transfers : Nat
deriving DecidableEq, Repr

/-- `DownloadPackage`: resolve version info via the registry (this always
fetches metadata), consult the cache when `useCache` is set (propagating a
checksum-mismatch error, or returning the cached path on a hit), and
otherwise transfer the archive into the cache path.  Returns the result or
error, the resulting file system, and the effect counters. -/
def downloadPackage (h : List Nat → String)
    (fetch : Except String PackageMetadata) (cacheDir : String) (fs : FS)
    (name version : String) (opts : DownloadOptions) (t : Transfer) :
    Except DlErr DlResult × FS × Effects :=
  match getPackageVersion fetch version with
  | (.error e, n) => (.error (.registry e), fs, ⟨n, 0⟩)
  | (.ok versionInfo, n) =>
    let targetPath := cachePath cacheDir name version
    let transferNow : FS → Except DlErr DlResult × FS × Effects := fun fsIn =>
      match downloadFile h fsIn targetPath versionInfo.dist.shasum t with
      | (some e, fs2) => (.error (.transfer e), fs2, ⟨n, 1⟩)
      | (none, fs2) =>
        (.ok ⟨name, version, targetPath, versionInfo.dist.shasum, none⟩, fs2, ⟨n, 1⟩)
    if opts.useCache then
      match checkCache h cacheDir fs name version versionInfo.dist.shasum with
      | ((_, _, some (exp, act)), fs1) => (.error (.cacheValidation exp act), fs1, ⟨n, 0⟩)
      | ((cachedPath, true, none), fs1) =>
        (.ok ⟨name, version, cachedPath, versionInfo.dist.shasum, none⟩, fs1, ⟨n, 0⟩)
      | ((_, false, none), fs1) => transferNow fs1
    else transferNow fs

/-- Errors of a dependency-set download. -/
inductive DepsErr where
  | metadataFailed (e : RegErr)
  | someFailed (failures : List (String × String × DlErr))
deriving DecidableEq, Repr

/-- `DownloadDependencies`: resolve the version info, return an empty list
when it has no dependencies, and otherwise run one `DownloadPackage` task per
dependency, collecting every success and every failure without cancelling
siblings, and combining all failures into one error.  The per-dependency
outcomes are abstracted by `dl`, and `order` is the completion order in which
the result and error channels deliver them (any permutation of the
dependency list — tasks finish in no guaranteed order). -/
def downloadDependencies (fetch : Except String PackageMetadata)
    (versionConstraint : String)
    (dl : String → String → Except DlErr DlResult)
    (order : List (String × String)) : List DlResult × Option DepsErr :=
  match getPackageVersion fetch versionConstraint with
  | (.error e, _) => ([], some (.metadataFailed e))
  | (.ok versionInfo, _) =>
    if versionInfo.dependencies = [] then ([], none)
    else
      let results := order.filterMap (fun d => (dl d.1 d.2).toOption)
      let errs := order.filterMap (fun d =>
        match dl d.1 d.2 with
        | .error e => some (d.1, d.2, e)
        | .ok _ => none)
      if errs ≠ [] then (results, some (.someFailed errs)) else (results, none)

/-! ## Order theory of the semver comparator

`svcompare` is shown to be a lawful (oriented, transitive) comparator, so the
descending sort in `resolveVersion` really sorts and its first satisfying
element is a maximum. -/

open Batteries

instance (cmp : α → α → Ordering) [OrientedCmp cmp] : OrientedCmp (listCompare cmp) where
  symm a b := by
    induction a generalizing b with
    | nil => cases b <;> rfl
    | cons x xs ih =>
      cases b with
      | nil => rfl
      | cons y ys =>
        show ((cmp x y).then (listCompare cmp xs ys)).swap = _
        rw [Ordering.swap_then, OrientedCmp.symm, ih]
        rfl

instance (cmp : α → α → Ordering) [TransCmp cmp] : TransCmp (listCompare cmp) where
  le_trans {a} := by
    induction a with
    | nil =>
      intro b c _ _
      cases c with
      | nil => simp [listCompare]
      | cons z zs => simp [listCompare]
    | cons x xs ih =>
      intro b c h1 h2
      cases b with
      | nil => exact absurd rfl h1
      | cons y ys =>
        cases c with
        | nil => exact absurd rfl h2
        | cons z zs =>
          show ((cmp x z).then (listCompare cmp xs zs)) ≠ .gt
          have h1' : (cmp x y).then (listCompare cmp xs ys) ≠ .gt := h1
          have h2' : (cmp y z).then (listCompare cmp ys zs) ≠ .gt := h2
          rw [ne_eq, Ordering.then_eq_gt, not_or, not_and] at h1' h2'
          rw [ne_eq, Ordering.then_eq_gt, not_or, not_and]
          refine ⟨TransCmp.le_trans h1'.1 h2'.1, fun e1 e2 => ?_⟩
          match xy : cmp x y with
          | .gt => exact h1'.1 xy
          | .eq =>
            exact ih (h1'.2 xy) (h2'.2 (TransCmp.cmp_congr_left xy ▸ e1)) e2
          | .lt =>
            exact h2'.1 (OrientedCmp.cmp_eq_gt.2 (TransCmp.cmp_congr_left e1 ▸ xy))

instance : OrientedCmp preIdCompare where
  symm a b := by
    cases a <;> cases b
    · exact @OrientedCmp.symm Nat compare _ _ _
    · rfl
    · rfl
    · exact @OrientedCmp.symm (List Char) (listCompare compare) _ _ _

instance : TransCmp preIdCompare where
  le_trans {a b c} h1 h2 := by
    cases a <;> cases b <;> cases c <;> simp_all [preIdCompare]
    · exact TransCmp.le_trans (α := Nat) h1 h2
    · exact @TransCmp.le_trans (List Char) (listCompare compare) _ _ _ _ h1 h2

instance : OrientedCmp prereleaseCompare where
  symm a b := by
    cases a <;> cases b
    · rfl
    · rfl
    · rfl
    · exact @OrientedCmp.symm (List PreId) (listCompare preIdCompare) _ _ _

instance : TransCmp prereleaseCompare where
  le_trans {a b c} h1 h2 := by
    cases a <;> cases b <;> cases c <;> simp_all [prereleaseCompare]
    exact @TransCmp.le_trans (List PreId) (listCompare preIdCompare) _ _ _ _ h1 h2

instance : TransCmp svcompare :=
  inferInstanceAs (TransCmp (compareLex (Ordering.byKey SemVer.major compare)
    (compareLex (Ordering.byKey SemVer.minor compare)
      (compareLex (Ordering.byKey SemVer.patch compare)
        (Ordering.byKey SemVer.pre prereleaseCompare)))))

instance : IsTotal SemVer svGeRel where
  total a b := by
    unfold svGeRel svLe
    by_cases h : svcompare a b = .gt
    · have := OrientedCmp.cmp_eq_gt.1 h
      simp [this]
    · simp [h]

instance : IsTrans SemVer svGeRel where
  trans a b c h1 h2 := by
    unfold svGeRel svLe at h1 h2 ⊢
    simp only [ne_eq, decide_eq_true_eq] at h1 h2 ⊢
    exact TransCmp.le_trans h2 h1

/-- In a `Pairwise R` list, the first element found by `find?` is `R`-related
to every later (hence every other) element satisfying the predicate. -/
theorem find?_pairwise {R : α → α → Prop} {p : α → Bool} {x : α} :
    ∀ {l : List α}, l.Pairwise R → l.find? p = some x →
      ∀ y ∈ l, p y = true → R x y ∨ x = y := by
  intro l
  induction l with
  | nil => simp
  | cons a as ih =>
    intro hp hf y hy hpy
    by_cases ha : p a
    · rw [List.find?_cons_of_pos _ ha] at hf
      cases hf
      rcases List.mem_cons.1 hy with rfl | hy2
      · exact Or.inr rfl
      · exact Or.inl ((List.pairwise_cons.1 hp).1 y hy2)
    · rw [List.find?_cons_of_neg _ ha] at hf
      rcases List.mem_cons.1 hy with rfl | hy2
      · exact absurd hpy (by simpa using ha)
      · exact ih (List.pairwise_cons.1 hp).2 hf y hy2 hpy

/-- The result of `sortDesc` is pairwise descending. -/
theorem sortDesc_sorted (l : List SemVer) : (sortDesc l).Pairwise svGeRel :=
  List.sorted_insertionSort svGeRel l

/-- `sortDesc` keeps exactly the input's elements. -/
theorem mem_sortDesc {l : List SemVer} {v : SemVer} : v ∈ sortDesc l ↔ v ∈ l :=
  List.mem_insertionSort svGeRel

/-! ## Concrete sample data for witnesses and counterexamples -/

/-- Demonstration digest for concrete runs: the byte count in decimal.  The
embedded code treats the digest as an opaque function, so any concrete choice
exercises the same control flow as SHA-1. -/
def hashLen : List Nat → String := fun bs => toString bs.length

/-- A version entry with no dependencies. -/
def mkVI (v sha : String) : VersionInfo := ⟨v, [], ⟨"http://registry/" ++ v, sha⟩⟩

/-- The spec's example metadata: `express` with two published versions. -/
def Mexpress : PackageMetadata :=
  ⟨"express",
   [("4.17.0", mkVI "4.17.0" "sha0"), ("4.17.1", mkVI "4.17.1" "sha1")],
   [("latest", "4.17.1")]⟩

/-- One-version metadata whose checksum matches `hashLen [b]` for any byte. -/
def Mone : PackageMetadata := ⟨"p", [("1.0.0", mkVI "1.0.0" "1")], []⟩

/-- Metadata whose only `versions` key is parseable but not canonical. -/
def Mnoncanon : PackageMetadata := ⟨"p", [("v1.0.0", mkVI "1.0.0" "s")], []⟩

/-- A dependency set with one failing and two succeeding downloads. -/
def MwithDeps : PackageMetadata :=
  ⟨"app",
   [("1.0.0", ⟨"1.0.0", [("a", "1.0.0"), ("b", "1.0.0"), ("c", "1.0.0")],
      ⟨"http://registry/app", "0"⟩⟩)],
   []⟩

/-- Per-dependency outcomes: `b` fails with a registry 404-style error. -/
def dlSample : String → String → Except DlErr DlResult := fun n v =>
  if n = "b" then .error (.registry (.metadataFailed "HTTP 404"))
  else .ok ⟨n, v, cachePath "c" n v, "1", none⟩

/-- Responses that fail twice (transport, then HTTP 500) and then succeed. -/
def resps3 : Nat → HttpResp Nat := fun i =>
  if i = 0 then .err "connection refused"
  else if i = 1 then .resp 500 "server error" none
  else .resp 200 "ok" (some 7)

/-- Responses that always fail, with distinguishable statuses. -/
def respsFail : Nat → HttpResp Nat := fun i => .resp (500 + i) "boom" none

theorem svLe_refl (a : SemVer) : svLe a a = true := by
  unfold svLe
  simp [@OrientedCmp.cmp_refl SemVer svcompare a inferInstance]

/-! ## Small file-system lemmas -/

theorem fsWrite_lookup_self (fs : FS) (p : String) (c : List Nat) :
    (fsWrite fs p c).lookup p = some c := by
  simp [fsWrite, List.lookup]

theorem fsRemove_lookup_self (fs : FS) (p : String) :
    (fsRemove fs p).lookup p = none := by
  induction fs with
  | nil => rfl
  | cons e rest ih =>
    obtain ⟨k, v⟩ := e
    by_cases he : k = p
    · simpa [fsRemove, he] using ih
    · have hne : (p == k) = false := by
        simp only [beq_eq_false_iff_ne, ne_eq]
        exact fun h => he h.symm
      simp only [fsRemove, ne_eq, decide_not] at ih ⊢
      rw [List.filter_cons, if_pos (by simp [he])]
      simp only [List.lookup, hne]
      exact ih

/-- `getPackageVersion` always fetches metadata at least once on success. -/
theorem getPackageVersion_fetches_pos {fetch : Except String PackageMetadata}
    {vc : String} {vi : VersionInfo} {n : Nat}
    (hvi : getPackageVersion fetch vc = (.ok vi, n)) : 1 ≤ n := by
  unfold getPackageVersion at hvi
  split at hvi
  · simp at hvi
  · rename_i version m heq
    split at hvi
    · simp at hvi
    · split at hvi <;> simp_all <;> omega

/-- The retry loop returns the first success, after exactly the failing
attempts before it plus one. -/
theorem fetchLoop_success {α : Type} (responses : Nat → HttpResp α) (a : α) :
    ∀ (rem k att : Nat) (le : Option FetchErr), k < rem →
    (∀ i, i < k → (classifyAttempt (responses (att + i))).isOk = false) →
    classifyAttempt (responses (att + k)) = .ok a →
    fetchLoop responses rem att le = (.ok a, att + k + 1) := by
  intro rem
  induction rem with
  | zero => intro k att le hk; omega
  | succ r ih =>
    intro k att le hk hfails hsucc
    cases k with
    | zero =>
      simp only [Nat.add_zero] at hsucc
      simp [fetchLoop, hsucc]
    | succ k2 =>
      have h0 := hfails 0 (by omega)
      simp only [Nat.add_zero] at h0
      cases hc : classifyAttempt (responses att) with
      | ok b => rw [hc] at h0; simp [Except.isOk, Except.toBool] at h0
      | error e =>
        have hrec := ih k2 (att + 1) (some e) (by omega)
          (fun i hi => by
            have h := hfails (i + 1) (by omega)
            rw [show att + (i + 1) = att + 1 + i by omega] at h
            exact h)
          (by rw [show att + 1 + k2 = att + (k2 + 1) by omega]; exact hsucc)
        have hstep : fetchLoop responses (r + 1) att le =
            fetchLoop responses r (att + 1) (some e) := by
          conv_lhs => unfold fetchLoop
          rw [hc]
        rw [hstep, hrec]
        rw [show att + 1 + k2 + 1 = att + (k2 + 1) + 1 by omega]

/-- When every attempt fails, the retry loop returns the error recorded by
the final attempt, after making all the attempts. -/
theorem fetchLoop_exhaust {α : Type} (responses : Nat → HttpResp α) :
    ∀ (rem att : Nat) (le : Option FetchErr), 0 < rem →
    (∀ i, i < rem → (classifyAttempt (responses (att + i))).isOk = false) →
    fetchLoop responses rem att le =
      (.error (classifyErr (responses (att + rem - 1))), att + rem) := by
  intro rem
  induction rem with
  | zero => intro att le h; omega
  | succ r ih =>
    intro att le _ hfails
    have h0 := hfails 0 (by omega)
    simp only [Nat.add_zero] at h0
    cases hc : classifyAttempt (responses att) with
    | ok b => rw [hc] at h0; simp [Except.isOk, Except.toBool] at h0
    | error e =>
      have hstep : fetchLoop responses (r + 1) att le =
          fetchLoop responses r (att + 1) (some e) := by
        conv_lhs => unfold fetchLoop
        rw [hc]
      cases r with
      | zero =>
        rw [hstep]
        show (Except.error (some e), att + 1) = _
        rw [show att + 1 - 1 = att by omega]
        simp [classifyErr, hc]
      | succ r2 =>
        have hrec := ih (att + 1) (some e) (by omega)
          (fun i hi => by
            have h := hfails (i + 1) (by omega)
            rw [show att + (i + 1) = att + 1 + i by omega] at h
            exact h)
        rw [hstep, hrec]
        rw [show att + 1 + (r2 + 1) - 1 = att + (r2 + 1 + 1) - 1 by omega,
          show att + 1 + (r2 + 1) = att + (r2 + 1 + 1) by omega]

/-! ## Claim theorems -/

/-- C3, counterexample: the semaphore gating dependency downloads is *not*
sized to `max(opts.concurrency, defaultConcurrency)` — with `concurrency = 1`
the code sizes it to `1`, not `max 1 3 = 3`. -/
theorem c3_counterexample :
    semaphoreCapacity ⟨1, true, false⟩ ≠ max (1 : Int) defaultConcurrency := by
  decide

/-- C3, amended: the semaphore capacity equals `opts.concurrency` when that is
positive, and `defaultConcurrency` otherwise (defaults applied when `≤ 0`);
either way the capacity is positive, so the number of in-flight transfers is
bounded. -/
theorem c3_semaphore_capacity (opts : DownloadOptions) :
    (opts.concurrency ≤ 0 → semaphoreCapacity opts = defaultConcurrency) ∧
    (0 < opts.concurrency → semaphoreCapacity opts = opts.concurrency) ∧
    0 < semaphoreCapacity opts := by
  unfold semaphoreCapacity effectiveConcurrency defaultConcurrency
  refine ⟨fun hle => by simp [hle], fun hpos => by rw [if_neg (by omega)], ?_⟩
  by_cases hc : opts.concurrency ≤ 0
  · simp [hc]
  · rw [if_neg hc]; omega

/-- C3, witness: the amended capacity law evaluated at concrete options. -/
theorem c3_witness :
    semaphoreCapacity ⟨0, true, false⟩ = defaultConcurrency ∧
    semaphoreCapacity ⟨2, false, true⟩ = 2 :=
  ⟨(c3_semaphore_capacity _).1 (by decide), (c3_semaphore_capacity _).2.1 (by decide)⟩

/-- C4: `checkCache` reports a plain miss (`found = false`, no error) when no
file exists at the cache path; reads and digests an existing file, returning a
hit with the path on a matching digest; and on a mismatching digest deletes
the stored file and returns a checksum-mismatch error rather than a mere
miss, so "never cached" and "cached but invalid" are distinguishable. -/
theorem c4_checkCache_characterization (h : List Nat → String) (cacheDir : String)
    (fs : FS) (name version exp : String) :
    (fs.lookup (cachePath cacheDir name version) = none →
      checkCache h cacheDir fs name version exp = (("", false, none), fs)) ∧
    (∀ content, fs.lookup (cachePath cacheDir name version) = some content →
      h content = exp →
      checkCache h cacheDir fs name version exp =
        ((cachePath cacheDir name version, true, none), fs)) ∧
    (∀ content, fs.lookup (cachePath cacheDir name version) = some content →
      h content ≠ exp →
      checkCache h cacheDir fs name version exp =
        (("", false, some (exp, h content)),
          fsRemove fs (cachePath cacheDir name version)) ∧
      (checkCache h cacheDir fs name version exp).2.lookup
        (cachePath cacheDir name version) = none) := by
  refine ⟨?_, ?_, ?_⟩
  · intro hmiss
    simp [checkCache, hmiss]
  · intro content hsome hmatch
    simp [checkCache, hsome, hmatch]
  · intro content hsome hneq
    refine ⟨by simp [checkCache, hsome, hneq], ?_⟩
    simp [checkCache, hsome, hneq, fsRemove_lookup_self]

/-- C4, witness: the three cache-lookup behaviors at concrete stores. -/
theorem c4_witness :
    checkCache hashLen "c" [] "a" "1.0.0" "1" = (("", false, none), []) ∧
    checkCache hashLen "c" [(cachePath "c" "a" "1.0.0", [5])] "a" "1.0.0" "1" =
      ((cachePath "c" "a" "1.0.0", true, none), [(cachePath "c" "a" "1.0.0", [5])]) ∧
    checkCache hashLen "c" [(cachePath "c" "a" "1.0.0", [5, 6])] "a" "1.0.0" "1" =
      (("", false, some ("1", "2")), []) :=
  ⟨(c4_checkCache_characterization hashLen "c" [] "a" "1.0.0" "1").1 (by decide),
   (c4_checkCache_characterization hashLen "c" _ "a" "1.0.0" "1").2.1 [5]
     (by decide) (by decide),
   (((c4_checkCache_characterization hashLen "c" _ "a" "1.0.0" "1").2.2 [5, 6]
     (by decide) (by decide)).1).trans (by decide)⟩

/-- C7: `fetchWithRetry` records each transport error, HTTP `≥ 400` response
(429 included) or decode failure as the last error and retries rather than
raising; a successful decode returns immediately after exactly the failing
attempts plus one (so two failures then a success yield success after exactly
three attempts, given the retry budget allows a third); once all
`MaxRetries + 1` attempts (`attempt <= MaxRetries`) fail, the call fails with
the last recorded error. -/
theorem c7_fetchWithRetry {α : Type} [DecidableEq α] (maxRetries : Nat)
    (responses : Nat → HttpResp α) :
    (∀ (k : Nat) (a : α), k ≤ maxRetries →
      (∀ i, i < k → (classifyAttempt (responses i)).isOk = false) →
      classifyAttempt (responses k) = .ok a →
      fetchWithRetry maxRetries responses = (.ok a, k + 1)) ∧
    ((∀ i, i ≤ maxRetries → (classifyAttempt (responses i)).isOk = false) →
      fetchWithRetry maxRetries responses =
        (.error (classifyErr (responses maxRetries)), maxRetries + 1)) := by
  constructor
  · intro k a hk hfails hsucc
    have h := fetchLoop_success responses a (maxRetries + 1) k 0 none (by omega)
      (fun i hi => by simpa using hfails i hi) (by simpa using hsucc)
    simpa [fetchWithRetry] using h
  · intro hfails
    have h := fetchLoop_exhaust responses (maxRetries + 1) 0 none (by omega)
      (fun i hi => by simpa using hfails i (by omega))
    simpa [fetchWithRetry] using h

/-- C7, witness: two failures (transport, then HTTP 500) then a success give
a successful fetch in exactly three attempts; four distinct failures exhaust
the budget `maxRetries = 3` and surface the final attempt's error. -/
theorem c7_witness :
    fetchWithRetry 3 resps3 = (.ok 7, 3) ∧
    fetchWithRetry 3 respsFail = (.error (some (.httpError 503 "boom")), 4) :=
  ⟨(c7_fetchWithRetry 3 resps3).1 2 7 (by decide) (by decide) (by decide),
   ((c7_fetchWithRetry 3 respsFail).2 (by decide)).trans (by decide)⟩

/-- C10: no operation ever populates the `Error` field of a returned
`DownloadResult`: every result `DownloadPackage` returns carries
`error = none`, and every result in a `DownloadDependencies` list does too
(failures are reported only through the separate error value; the
per-dependency tasks are `DownloadPackage` calls, whose results satisfy the
first part). -/
theorem c10_error_field_never_set :
    (∀ (h : List Nat → String) (fetch : Except String PackageMetadata)
        (cacheDir : String) (fs : FS) (name version : String)
        (opts : DownloadOptions) (t : Transfer) (r : DlResult) (fs2 : FS)
        (eff : Effects),
      downloadPackage h fetch cacheDir fs name version opts t = (.ok r, fs2, eff) →
      r.error = none) ∧
    (∀ (fetch : Except String PackageMetadata) (vc : String)
        (dl : String → String → Except DlErr DlResult)
        (order : List (String × String)) (r : DlResult),
      (∀ n v r2, dl n v = .ok r2 → r2.error = none) →
      r ∈ (downloadDependencies fetch vc dl order).1 → r.error = none) := by
  constructor
  · intro h fetch cacheDir fs name version opts t r fs2 eff hEq
    unfold downloadPackage at hEq
    split at hEq
    · simp at hEq
    · dsimp only at hEq
      split at hEq
      · split at hEq
        · simp at hEq
        · simp only [Prod.mk.injEq, Except.ok.injEq] at hEq
          rw [← hEq.1]
        · split at hEq
          · simp at hEq
          · simp only [Prod.mk.injEq, Except.ok.injEq] at hEq
            rw [← hEq.1]
      · split at hEq
        · simp at hEq
        · simp only [Prod.mk.injEq, Except.ok.injEq] at hEq
          rw [← hEq.1]
  · intro fetch vc dl order r hdl hmem
    unfold downloadDependencies at hmem
    split at hmem
    · simp at hmem
    · dsimp only at hmem
      split at hmem
      · simp at hmem
      · have hres : r ∈ order.filterMap (fun d => (dl d.1 d.2).toOption) := by
          split at hmem
          · exact hmem
          · exact hmem
        obtain ⟨d, _, hr⟩ := List.mem_filterMap.1 hres
        cases hd : dl d.1 d.2 with
        | error e => rw [hd] at hr; simp [Except.toOption] at hr
        | ok r2 =>
          rw [hd] at hr
          simp only [Except.toOption, Option.some.injEq] at hr
          rw [← hr]
          exact hdl d.1 d.2 r2 hd

/-- C10, witness: the two parts applied to a concrete mixed-outcome run. -/
theorem c10_witness :
    (⟨"p", "1.0.0", cachePath "c" "p" "1.0.0", "1", none⟩ : DlResult).error = none ∧
    (⟨"a", "1.0.0", cachePath "c" "a" "1.0.0", "1", none⟩ : DlResult).error = none :=
  ⟨c10_error_field_never_set.1 hashLen (.ok Mone) "c" [] "p" "1.0.0"
      ⟨0, true, false⟩ (.resp 200 [7] none) _
      [(cachePath "c" "p" "1.0.0", [7])] ⟨1, 1⟩ (by decide),
   c10_error_field_never_set.2 (.ok MwithDeps) "1.0.0" dlSample
      [("a", "1.0.0"), ("b", "1.0.0"), ("c", "1.0.0")] _
      (fun n v r2 hr => by
        unfold dlSample at hr
        split at hr
        · simp at hr
        · simp only [Except.ok.injEq] at hr
          rw [← hr])
      (by decide)⟩

/-- C2, counterexample: `downloadFile` *can* return while a file whose content
does not match the expected checksum remains at the target path — the target
file is created (empty) before the HTTP request, and the bad-status return
(here a 404) does not remove it; the leftover empty file's digest differs from
the expected checksum. -/
theorem c2_counterexample :
    (downloadFile hashLen [] "c/a/1.0.0/package.tgz" "1" (.resp 404 [1] none)).1 =
      some (.badStatus 404) ∧
    (downloadFile hashLen [] "c/a/1.0.0/package.tgz" "1"
        (.resp 404 [1] none)).2.lookup "c/a/1.0.0/package.tgz" = some [] ∧
    hashLen [] ≠ "1" := by
  decide

/-- C2, amended: once the copy has started, `downloadFile` never returns with
a mismatching file at the target path: a completed transfer whose digest
mismatches is deleted before the checksum-mismatch error is returned, an
interrupted copy's partial file is deleted before the error is returned, and
a successful return leaves exactly the transferred bytes, whose digest equals
the expected checksum.  However, on a transport error or a non-200 status —
failures occurring after the file was created but before the copy — the empty
file created at open time remains, so any leftover mismatching content is
that empty pre-transfer file. -/
theorem c2_downloadFile_integrity (h : List Nat → String) (fs : FS)
    (targetPath exp : String) (t : Transfer) :
    (∀ body, t = .resp 200 body none → h body ≠ exp →
      (downloadFile h fs targetPath exp t).1 =
        some (.checksumMismatch exp (h body)) ∧
      (downloadFile h fs targetPath exp t).2.lookup targetPath = none) ∧
    (∀ body n, t = .resp 200 body (some n) →
      (downloadFile h fs targetPath exp t).1 = some .interrupted ∧
      (downloadFile h fs targetPath exp t).2.lookup targetPath = none) ∧
    ((downloadFile h fs targetPath exp t).1 = none →
      ∃ body, t = .resp 200 body none ∧
        (downloadFile h fs targetPath exp t).2.lookup targetPath = some body ∧
        h body = exp) ∧
    (∀ content,
      (downloadFile h fs targetPath exp t).2.lookup targetPath = some content →
      h content = exp ∨
        ((downloadFile h fs targetPath exp t).1.isSome = true ∧ content = [])) := by
  refine ⟨?_, ?_, ?_, ?_⟩
  · rintro body rfl hne
    constructor
    · simp [downloadFile, hne]
    · simp [downloadFile, hne, fsRemove_lookup_self]
  · rintro body n rfl
    constructor
    · simp [downloadFile]
    · simp [downloadFile, fsRemove_lookup_self]
  · intro hok
    cases t with
    | err e => simp [downloadFile] at hok
    | resp status body intr =>
      by_cases hst : status = 200
      · subst hst
        cases intr with
        | some n => simp [downloadFile] at hok
        | none =>
          by_cases hne : h body = exp
          · exact ⟨body, rfl, by simp [downloadFile, hne, fsWrite_lookup_self], hne⟩
          · simp [downloadFile, hne] at hok
      · simp [downloadFile, hst] at hok
  · intro content hsome
    cases t with
    | err e =>
      right
      refine ⟨by simp [downloadFile], ?_⟩
      rw [show (downloadFile h fs targetPath exp (.err e)).2 =
            fsWrite fs targetPath [] from rfl, fsWrite_lookup_self] at hsome
      exact (Option.some_inj.mp hsome).symm
    | resp status body intr =>
      by_cases hst : status = 200
      · subst hst
        cases intr with
        | some n =>
          rw [show (downloadFile h fs targetPath exp (.resp 200 body (some n))).2 =
                fsRemove (fsWrite (fsWrite fs targetPath []) targetPath (body.take n))
                  targetPath from rfl,
            fsRemove_lookup_self] at hsome
          simp at hsome
        | none =>
          by_cases hne : h body = exp
          · left
            rw [show (downloadFile h fs targetPath exp (.resp 200 body none)).2 =
                  fsWrite (fsWrite fs targetPath []) targetPath body from by
                    simp [downloadFile, hne],
              fsWrite_lookup_self] at hsome
            cases hsome
            exact hne
          · rw [show (downloadFile h fs targetPath exp (.resp 200 body none)).2 =
                  fsRemove (fsWrite (fsWrite fs targetPath []) targetPath body)
                    targetPath from by simp [downloadFile, hne],
              fsRemove_lookup_self] at hsome
            simp at hsome
      · right
        refine ⟨by simp [downloadFile, hst], ?_⟩
        rw [show (downloadFile h fs targetPath exp (.resp status body intr)).2 =
              fsWrite fs targetPath [] from by simp [downloadFile, hst],
          fsWrite_lookup_self] at hsome
        exact (Option.some_inj.mp hsome).symm

/-- C2, witness: the amended deletion guarantees at concrete transfers. -/
theorem c2_witness :
    ((downloadFile hashLen [] "t" "1" (.resp 200 [9, 9] none)).1 =
        some (.checksumMismatch "1" "2") ∧
      (downloadFile hashLen [] "t" "1" (.resp 200 [9, 9] none)).2.lookup "t" = none) ∧
    ((downloadFile hashLen [] "t" "1" (.resp 200 [9, 9] (some 1))).1 =
        some .interrupted ∧
      (downloadFile hashLen [] "t" "1" (.resp 200 [9, 9] (some 1))).2.lookup "t" =
        none) ∧
    hashLen [9] = "1" :=
  ⟨by
    have h := (c2_downloadFile_integrity hashLen [] "t" "1"
      (.resp 200 [9, 9] none)).1 [9, 9] rfl (by decide)
    exact ⟨h.1.trans (by decide), h.2⟩,
   (c2_downloadFile_integrity hashLen [] "t" "1" (.resp 200 [9, 9] (some 1))).2.1
     [9, 9] 1 rfl,
   by decide⟩

/-- C5: when some dependencies fail and some succeed, `DownloadDependencies`
accounts for every launched task (no failure cancels a sibling): it returns
the full list of successful results — every dependency whose download
succeeded contributes its result — together with a single non-`none` combined
error that contains every failure (and nothing else), for any completion
order of the concurrent tasks. -/
theorem c5_partial_failure (fetch : Except String PackageMetadata) (vc : String)
    (dl : String → String → Except DlErr DlResult)
    (order : List (String × String)) (vi : VersionInfo) (n : Nat)
    (hvi : getPackageVersion fetch vc = (.ok vi, n))
    (hperm : List.Perm order vi.dependencies)
    (hfail : ∃ d ∈ vi.dependencies, (dl d.1 d.2).isOk = false)
    (hsucc : ∃ d ∈ vi.dependencies, (dl d.1 d.2).isOk = true) :
    ∃ fails,
      (downloadDependencies fetch vc dl order).2 = some (.someFailed fails) ∧
      fails ≠ [] ∧
      (∀ d ∈ vi.dependencies, ∀ e, dl d.1 d.2 = .error e → (d.1, d.2, e) ∈ fails) ∧
      (∀ x ∈ fails, ∃ d ∈ vi.dependencies,
        x.1 = d.1 ∧ x.2.1 = d.2 ∧ dl d.1 d.2 = .error x.2.2) ∧
      (∀ d ∈ vi.dependencies, ∀ rr, dl d.1 d.2 = .ok rr →
        rr ∈ (downloadDependencies fetch vc dl order).1) ∧
      (downloadDependencies fetch vc dl order).1 ≠ [] := by
  obtain ⟨df, hdf, hdffail⟩ := hfail
  obtain ⟨ds, hds, hdsok⟩ := hsucc
  obtain ⟨ef, hef⟩ : ∃ e, dl df.1 df.2 = .error e := by
    cases hd : dl df.1 df.2 with
    | error e => exact ⟨e, rfl⟩
    | ok _ => rw [hd] at hdffail; simp [Except.isOk, Except.toBool] at hdffail
  obtain ⟨rs, hrs⟩ : ∃ r, dl ds.1 ds.2 = .ok r := by
    cases hd : dl ds.1 ds.2 with
    | ok r => exact ⟨r, rfl⟩
    | error _ => rw [hd] at hdsok; simp [Except.isOk, Except.toBool] at hdsok
  have hne : vi.dependencies ≠ [] := List.ne_nil_of_mem hdf
  have hmemf : (df.1, df.2, ef) ∈ order.filterMap
      (fun d : String × String => match dl d.1 d.2 with
        | .error e => some (d.1, d.2, e)
        | .ok _ => none) :=
    List.mem_filterMap.2 ⟨df, hperm.mem_iff.2 hdf, by simp only [hef]⟩
  have hout : downloadDependencies fetch vc dl order =
      (order.filterMap (fun d => (dl d.1 d.2).toOption),
        some (.someFailed (order.filterMap
          (fun d : String × String => match dl d.1 d.2 with
            | .error e => some (d.1, d.2, e)
            | .ok _ => none)))) := by
    unfold downloadDependencies
    rw [hvi]
    dsimp only
    rw [if_neg hne, if_pos (List.ne_nil_of_mem hmemf)]
  refine ⟨_, by rw [hout], List.ne_nil_of_mem hmemf, ?_, ?_, ?_, ?_⟩
  · intro d hd e hde
    exact List.mem_filterMap.2 ⟨d, hperm.mem_iff.2 hd, by simp only [hde]⟩
  · intro x hx
    obtain ⟨d, hd, hval⟩ := List.mem_filterMap.1 hx
    cases hdd : dl d.1 d.2 with
    | error e =>
      rw [hdd] at hval
      simp only [Option.some.injEq] at hval
      exact ⟨d, hperm.mem_iff.1 hd, by rw [← hval], by rw [← hval],
        by rw [← hval]; exact hdd⟩
    | ok _ => rw [hdd] at hval; simp at hval
  · intro d hd rr hrr
    rw [hout]
    exact List.mem_filterMap.2 ⟨d, hperm.mem_iff.2 hd, by simp only [hrr, Except.toOption]⟩
  · rw [hout]
    have hm : rs ∈ order.filterMap (fun d => (dl d.1 d.2).toOption) :=
      List.mem_filterMap.2 ⟨ds, hperm.mem_iff.2 hds, by simp only [hrs, Except.toOption]⟩
    exact List.ne_nil_of_mem hm

/-- C5, witness: three dependencies, one failing — both successes are
returned and the single combined error holds exactly the one failure. -/
theorem c5_witness :
    ∃ fails,
      (downloadDependencies (.ok MwithDeps) "1.0.0" dlSample
        [("b", "1.0.0"), ("c", "1.0.0"), ("a", "1.0.0")]).2 =
          some (.someFailed fails) ∧
      fails ≠ [] ∧
      (∀ d ∈ (⟨"1.0.0", [("a", "1.0.0"), ("b", "1.0.0"), ("c", "1.0.0")],
          ⟨"http://registry/app", "0"⟩⟩ : VersionInfo).dependencies,
        ∀ e, dlSample d.1 d.2 = .error e → (d.1, d.2, e) ∈ fails) ∧
      (∀ x ∈ fails, ∃ d ∈ (⟨"1.0.0",
          [("a", "1.0.0"), ("b", "1.0.0"), ("c", "1.0.0")],
          ⟨"http://registry/app", "0"⟩⟩ : VersionInfo).dependencies,
        x.1 = d.1 ∧ x.2.1 = d.2 ∧ dlSample d.1 d.2 = .error x.2.2) ∧
      (∀ d ∈ (⟨"1.0.0", [("a", "1.0.0"), ("b", "1.0.0"), ("c", "1.0.0")],
          ⟨"http://registry/app", "0"⟩⟩ : VersionInfo).dependencies,
        ∀ rr, dlSample d.1 d.2 = .ok rr →
          rr ∈ (downloadDependencies (.ok MwithDeps) "1.0.0" dlSample
            [("b", "1.0.0"), ("c", "1.0.0"), ("a", "1.0.0")]).1) ∧
      (downloadDependencies (.ok MwithDeps) "1.0.0" dlSample
        [("b", "1.0.0"), ("c", "1.0.0"), ("a", "1.0.0")]).1 ≠ [] :=
  c5_partial_failure (.ok MwithDeps) "1.0.0" dlSample
    [("b", "1.0.0"), ("c", "1.0.0"), ("a", "1.0.0")]
    ⟨"1.0.0", [("a", "1.0.0"), ("b", "1.0.0"), ("c", "1.0.0")],
      ⟨"http://registry/app", "0"⟩⟩ 1
    (by decide) (by decide) ⟨("b", "1.0.0"), by decide, by decide⟩
    ⟨("a", "1.0.0"), by decide, by decide⟩

/-- C1: for a non-exact constraint, `resolveVersion` fails with an
invalid-constraint error when the constraint does not parse as a range;
otherwise it parses every key of the metadata's `versions` map as a version,
silently skipping unparsable keys, and fails with a no-matching-version error
when no parsed version satisfies the range, or returns (the canonical
rendering of) a parsed version that satisfies the range and is highest among
all satisfying parsed versions under semver precedence. -/
theorem c1_resolveVersion (versionConstraint : String) (M : PackageMetadata)
    (hnx : isExactVersion versionConstraint = false) :
    (parseConstraint versionConstraint = none →
      resolveVersion (.ok M) versionConstraint =
        (.error (.invalidConstraint versionConstraint), 1)) ∧
    (∀ c, parseConstraint versionConstraint = some c →
      ((∀ v ∈ (M.versions.map Prod.fst).filterMap parseVersion,
          checkConstraint c v = false) →
        resolveVersion (.ok M) versionConstraint =
          (.error (.noMatchingVersion versionConstraint), 1)) ∧
      (∀ w ∈ (M.versions.map Prod.fst).filterMap parseVersion,
        checkConstraint c w = true →
        ∃ v ∈ (M.versions.map Prod.fst).filterMap parseVersion,
          checkConstraint c v = true ∧
          resolveVersion (.ok M) versionConstraint = (.ok (vString v), 1) ∧
          ∀ u ∈ (M.versions.map Prod.fst).filterMap parseVersion,
            checkConstraint c u = true → svLe u v = true)) := by
  constructor
  · intro hpc
    simp only [resolveVersion, hnx, Bool.false_eq_true, if_false, hpc]
  · intro c hpc
    constructor
    · intro hall
      have hfind : (sortDesc ((M.versions.map Prod.fst).filterMap parseVersion)).find?
          (fun v => checkConstraint c v) = none := by
        rw [List.find?_eq_none]
        intro v hv
        simp [hall v (mem_sortDesc.1 hv)]
      simp only [resolveVersion, hnx, Bool.false_eq_true, if_false, hpc, hfind]
    · intro w hw hcw
      have hsome : ((sortDesc ((M.versions.map Prod.fst).filterMap parseVersion)).find?
          (fun v => checkConstraint c v)).isSome := by
        rw [List.find?_isSome]
        exact ⟨w, mem_sortDesc.2 hw, hcw⟩
      obtain ⟨v, hv⟩ := Option.isSome_iff_exists.1 hsome
      refine ⟨v, mem_sortDesc.1 (List.mem_of_find?_eq_some hv),
        List.find?_some hv, ?_, ?_⟩
      · simp only [resolveVersion, hnx, Bool.false_eq_true, if_false, hpc, hv]
      · intro u hu hcu
        rcases find?_pairwise (sortDesc_sorted _) hv u (mem_sortDesc.2 hu) hcu with
          hge | heq
        · exact hge
        · rw [heq]
          exact svLe_refl u

/-- C1, witness: the theorem applied to the spec's `express` example with the
caret constraint `^4.17.0`, whose hypotheses hold by evaluation. -/
theorem c1_witness :
    isExactVersion "^4.17.0" = false ∧
    (∀ c, parseConstraint "^4.17.0" = some c →
      ((∀ v ∈ (Mexpress.versions.map Prod.fst).filterMap parseVersion,
          checkConstraint c v = false) →
        resolveVersion (.ok Mexpress) "^4.17.0" =
          (.error (.noMatchingVersion "^4.17.0"), 1)) ∧
      (∀ w ∈ (Mexpress.versions.map Prod.fst).filterMap parseVersion,
        checkConstraint c w = true →
        ∃ v ∈ (Mexpress.versions.map Prod.fst).filterMap parseVersion,
          checkConstraint c v = true ∧
          resolveVersion (.ok Mexpress) "^4.17.0" = (.ok (vString v), 1) ∧
          ∀ u ∈ (Mexpress.versions.map Prod.fst).filterMap parseVersion,
            checkConstraint c u = true → svLe u v = true)) ∧
    resolveVersion (.ok Mexpress) "^4.17.0" = (.ok "4.17.1", 1) :=
  ⟨by decide, (c1_resolveVersion "^4.17.0" Mexpress (by decide)).2, by decide⟩

/-- C6: a version string that (after whitespace trimming, which the code
applies before every check) parses as a concrete semantic version, starts
with none of the range operators `^ ~ > < =`, and is not the literal token
`latest` or `*`, is returned by `resolveVersion` unchanged, with zero
metadata fetches — no network access, whatever the registry would have
answered. -/
theorem c6_exact_no_fetch (f : Except String PackageMetadata) (v : String)
    (hp : (parseVersionChars (trimChars (chars v))).isSome = true)
    (h1 : beginsWith ['^'] (trimChars (chars v)) = false)
    (h2 : beginsWith ['~'] (trimChars (chars v)) = false)
    (h3 : beginsWith ['>'] (trimChars (chars v)) = false)
    (h4 : beginsWith ['<'] (trimChars (chars v)) = false)
    (h5 : beginsWith ['='] (trimChars (chars v)) = false)
    (hl : trimChars (chars v) ≠ chars "latest")
    (hw : trimChars (chars v) ≠ chars "*") :
    resolveVersion f v = (.ok v, 0) := by
  have hx : isExactVersion v = true := by
    unfold isExactVersion
    rw [if_neg]
    · exact hp
    · simp [h1, h2, h3, h4, h5, hl, hw]
  simp only [resolveVersion, hx, if_true]

/-- C6, witness: an exact version resolves to itself with zero fetches even
when the registry is unreachable. -/
theorem c6_witness :
    resolveVersion (.error "registry unreachable") "1.2.3" = (.ok "1.2.3", 0) :=
  c6_exact_no_fetch (.error "registry unreachable") "1.2.3" (by decide) (by decide)
    (by decide) (by decide) (by decide) (by decide) (by decide) (by decide)

/-- C9: a successful non-exact resolution returns the canonical rendering
`vString` of the parsed winning version, not the raw metadata key it was
parsed from; concretely, for metadata whose only key is the parseable but
non-canonical `"v1.0.0"`, resolution of `"^1.0.0"` succeeds with `"1.0.0"`, a
string differing from every key, and the subsequent lookup inside
`GetPackageVersion` then fails with a version-not-found error even though
resolution succeeded. -/
theorem c9_canonical_rendering :
    (∀ (vc : String) (M : PackageMetadata) (s : String),
      isExactVersion vc = false →
      (resolveVersion (.ok M) vc).1 = .ok s →
      ∃ v, v ∈ (M.versions.map Prod.fst).filterMap parseVersion ∧ s = vString v) ∧
    (resolveVersion (.ok Mnoncanon) "^1.0.0" = (.ok "1.0.0", 1) ∧
      "1.0.0" ∉ Mnoncanon.versions.map Prod.fst ∧
      (getPackageVersion (.ok Mnoncanon) "^1.0.0").1 =
        .error (.versionNotFound "1.0.0")) := by
  constructor
  · intro vc M s hnx hok
    unfold resolveVersion at hok
    rw [hnx] at hok
    simp only [Bool.false_eq_true, if_false] at hok
    cases hpc : parseConstraint vc with
    | none => rw [hpc] at hok; simp at hok
    | some c =>
      rw [hpc] at hok
      dsimp only at hok
      cases hf : (sortDesc ((M.versions.map Prod.fst).filterMap parseVersion)).find?
          (fun v => checkConstraint c v) with
      | none => rw [hf] at hok; simp at hok
      | some v =>
        rw [hf] at hok
        simp only [Except.ok.injEq] at hok
        exact ⟨v, mem_sortDesc.1 (List.mem_of_find?_eq_some hf), hok.symm⟩
  · exact ⟨by decide, by decide, by decide⟩

/-- C9, witness: the canonical-rendering part applied to the concrete
non-canonical metadata. -/
theorem c9_witness :
    ∃ v, v ∈ (Mnoncanon.versions.map Prod.fst).filterMap parseVersion ∧
      "1.0.0" = vString v :=
  c9_canonical_rendering.1 "^1.0.0" Mnoncanon "1.0.0" (by decide) (by decide)

/-- C8, counterexample: a `DownloadPackage` call that is a pure cache hit
(`useCache = true`, valid cached file, zero archive transfers) still performs
network access — `GetPackageVersion` fetches registry metadata before the
cache is consulted, so its metadata-fetch count is `1`, not `0`. -/
theorem c8_counterexample :
    (downloadPackage hashLen (.ok Mone) "c" [(cachePath "c" "p" "1.0.0", [7])]
        "p" "1.0.0" ⟨0, true, false⟩ (.resp 200 [7] none)).1 =
      .ok ⟨"p", "1.0.0", cachePath "c" "p" "1.0.0", "1", none⟩ ∧
    (downloadPackage hashLen (.ok Mone) "c" [(cachePath "c" "p" "1.0.0", [7])]
        "p" "1.0.0" ⟨0, true, false⟩ (.resp 200 [7] none)).2.2 =
      ⟨1, 0⟩ ∧
    (1 : Nat) ≠ 0 := by
  decide

/-- C8, amended: with `useCache = true` and an initially empty cache entry,
the first `DownloadPackage` call transfers the archive once and stores it;
the second call is served from the cache with zero archive transfers and
returns a result identical in path and checksum to the first — but each call
still fetches registry metadata at least once, so a cache hit avoids the
archive transfer, not all network access. -/
theorem c8_cache_round_trip (h : List Nat → String)
    (fetch : Except String PackageMetadata) (cacheDir : String) (fs : FS)
    (name version : String) (opts : DownloadOptions) (vi : VersionInfo)
    (n : Nat) (body : List Nat)
    (huse : opts.useCache = true)
    (hvi : getPackageVersion fetch version = (.ok vi, n))
    (hmiss : fs.lookup (cachePath cacheDir name version) = none)
    (hsum : h body = vi.dist.shasum) :
    downloadPackage h fetch cacheDir fs name version opts (.resp 200 body none) =
      (.ok ⟨name, version, cachePath cacheDir name version, vi.dist.shasum, none⟩,
        fsWrite (fsWrite fs (cachePath cacheDir name version) [])
          (cachePath cacheDir name version) body, ⟨n, 1⟩) ∧
    downloadPackage h fetch cacheDir
        (fsWrite (fsWrite fs (cachePath cacheDir name version) [])
          (cachePath cacheDir name version) body) name version opts
        (.resp 200 body none) =
      (.ok ⟨name, version, cachePath cacheDir name version, vi.dist.shasum, none⟩,
        fsWrite (fsWrite fs (cachePath cacheDir name version) [])
          (cachePath cacheDir name version) body, ⟨n, 0⟩) ∧
    1 ≤ n := by
  have hdf : downloadFile h fs (cachePath cacheDir name version) vi.dist.shasum
      (.resp 200 body none) =
      (none, fsWrite (fsWrite fs (cachePath cacheDir name version) [])
        (cachePath cacheDir name version) body) := by
    simp [downloadFile, hsum]
  have hcc1 : checkCache h cacheDir fs name version vi.dist.shasum =
      (("", false, none), fs) := by
    simp [checkCache, hmiss]
  have hcc2 : checkCache h cacheDir
      (fsWrite (fsWrite fs (cachePath cacheDir name version) [])
        (cachePath cacheDir name version) body) name version vi.dist.shasum =
      ((cachePath cacheDir name version, true, none),
        fsWrite (fsWrite fs (cachePath cacheDir name version) [])
          (cachePath cacheDir name version) body) := by
    unfold checkCache
    dsimp only
    rw [fsWrite_lookup_self]
    simp [hsum]
  refine ⟨?_, ?_, getPackageVersion_fetches_pos hvi⟩
  · unfold downloadPackage
    rw [hvi]
    dsimp only
    simp only [huse, reduceIte]
    rw [hcc1]
    dsimp only
    rw [hdf]
  · unfold downloadPackage
    rw [hvi]
    dsimp only
    simp only [huse, reduceIte]
    rw [hcc2]

/-- C8, witness: the amended round trip evaluated at concrete metadata, an
empty cache and a one-byte archive. -/
theorem c8_witness :
    downloadPackage hashLen (.ok Mone) "c" [] "p" "1.0.0" ⟨0, true, false⟩
        (.resp 200 [7] none) =
      (.ok ⟨"p", "1.0.0", cachePath "c" "p" "1.0.0", "1", none⟩,
        fsWrite (fsWrite [] (cachePath "c" "p" "1.0.0") [])
          (cachePath "c" "p" "1.0.0") [7], ⟨1, 1⟩) ∧
    downloadPackage hashLen (.ok Mone) "c"
        (fsWrite (fsWrite [] (cachePath "c" "p" "1.0.0") [])
          (cachePath "c" "p" "1.0.0") [7]) "p" "1.0.0" ⟨0, true, false⟩
        (.resp 200 [7] none) =
      (.ok ⟨"p", "1.0.0", cachePath "c" "p" "1.0.0", "1", none⟩,
        fsWrite (fsWrite [] (cachePath "c" "p" "1.0.0") [])
          (cachePath "c" "p" "1.0.0") [7], ⟨1, 0⟩) ∧
    1 ≤ 1 :=
  c8_cache_round_trip hashLen (.ok Mone) "c" [] "p" "1.0.0" ⟨0, true, false⟩
    (mkVI "1.0.0" "1") 1 [7] (by decide) (by decide) (by decide) (by decide)

end ZapPM
